import Mathlib

/-!
Verification of the CDT operation encoder of the aerospike client
(src/src/operations/cdt.rs, src/src/policy/scan_policy.rs).

The msgpack encoder (crate::msgpack::encoder), the byte Buffer
(crate::commands::buffer), the stored-value union (crate::Value), the
context descriptors (crate::operations::cdt_context) and the particle-type
enumeration (crate::commands::ParticleType) are collaborators of the code
under verification that are not part of the two source files above; they
are modelled from the specification, as marked on each definition.
-/

namespace Aerospike

/-- Modelled from the spec: the outer wire value-type tags
(crate::commands::ParticleType). Only BLOB is used by this layer. -/
inductive ParticleType where
  | NULL
  | INTEGER
  | FLOAT
  | STRING
  | BLOB
  | BOOL
  | MAP
  | LIST
  | GEOJSON
deriving DecidableEq

/-- Modelled from the spec: the Stored Value tagged union (crate::Value), the
external recursive union of nil / boolean / integer / float / string / blob /
list / map / geo values. A float is carried as its raw 64-bit pattern; string,
blob and geo payloads are carried as their raw bytes. A map value carries its
entry list in the iteration order of the underlying hash map. -/
inductive Value where
  | Nil : Value
  | Bool (b : Bool) : Value
  | Int (i : Int) : Value
  | Float (bits : Nat) : Value
  | Str (s : List Nat) : Value
  | Blob (bs : List Nat) : Value
  | GeoJSON (s : List Nat) : Value
  | List (items : List Value) : Value
  | HashMap (entries : List (Value × Value)) : Value

/-- Big-endian base-256 digits of a number, fixed width. -/
def beBytes : Nat → Nat → List Nat
  | 0, _ => []
  | k + 1, n => beBytes k (n / 256) ++ [n % 256]

/-- Modelled from the spec: smallest self-describing encoding of an unsigned
integer in the compact binary serialization format the spec names. -/
def packNat (n : Nat) : List Nat :=
  if n ≤ 127 then [n]
  else if n ≤ 255 then [0xcc, n]
  else if n ≤ 65535 then [0xcd] ++ beBytes 2 n
  else if n ≤ 4294967295 then [0xce] ++ beBytes 4 n
  else [0xcf] ++ beBytes 8 (n % 18446744073709551616)

/-- Modelled from the spec: smallest self-describing encoding of a signed
64-bit integer (variable width by magnitude). -/
def packInt (i : Int) : List Nat :=
  if 0 ≤ i then packNat (i.toNat % 18446744073709551616)
  else if -32 ≤ i then [(i + 256).toNat]
  else if -128 ≤ i then [0xd0, (i + 256).toNat]
  else if -32768 ≤ i then [0xd1] ++ beBytes 2 (i + 65536).toNat
  else if -2147483648 ≤ i then [0xd2] ++ beBytes 4 (i + 4294967296).toNat
  else [0xd3] ++ beBytes 8 ((i + 18446744073709551616).toNat % 18446744073709551616)

/-- Modelled from the spec: type tag and element count opening a list value. -/
def arrayHeader (n : Nat) : List Nat :=
  if n ≤ 15 then [0x90 + n]
  else if n ≤ 65535 then [0xdc] ++ beBytes 2 n
  else [0xdd] ++ beBytes 4 n

/-- Modelled from the spec: type tag and pair count opening a map value. -/
def mapHeader (n : Nat) : List Nat :=
  if n ≤ 15 then [0x80 + n]
  else if n ≤ 65535 then [0xde] ++ beBytes 2 n
  else [0xdf] ++ beBytes 4 n

/-- Modelled from the spec: type tag and length prefix opening a string value. -/
def strHeader (n : Nat) : List Nat :=
  if n ≤ 31 then [0xa0 + n]
  else if n ≤ 255 then [0xd9, n]
  else if n ≤ 65535 then [0xda] ++ beBytes 2 n
  else [0xdb] ++ beBytes 4 n

/-- Modelled from the spec: type tag and length prefix opening a blob value. -/
def binHeader (n : Nat) : List Nat :=
  if n ≤ 255 then [0xc4, n]
  else if n ≤ 65535 then [0xc5] ++ beBytes 2 n
  else [0xc6] ++ beBytes 4 n

mutual

/-- Modelled from the spec: the recursive Stored Value encoding — each value
is tagged by its variant; numerics use the smallest round-tripping width,
string-likes a length prefix then raw bytes, containers a count then each
child recursively, map pairs as key then value in entry order. -/
def encodeValue : Value → List Nat
  | Value.Nil => [0xc0]
  | Value.Bool b => [if b then 0xc3 else 0xc2]
  | Value.Int i => packInt i
  | Value.Float bits => [0xcb] ++ beBytes 8 (bits % 18446744073709551616)
  | Value.Str s => strHeader s.length ++ s
  | Value.Blob bs => binHeader bs.length ++ bs
  | Value.GeoJSON s => strHeader s.length ++ s
  | Value.List items => arrayHeader items.length ++ encodeList items
  | Value.HashMap entries => mapHeader entries.length ++ encodePairs entries

/-- Encoding of a sequence of values, each in order. -/
def encodeList : List Value → List Nat
  | [] => []
  | v :: rest => encodeValue v ++ encodeList rest

/-- Encoding of a sequence of key-value pairs, key then value, in order. -/
def encodePairs : List (Value × Value) → List Nat
  | [] => []
  | (k, v) :: rest => encodeValue k ++ (encodeValue v ++ encodePairs rest)

end

mutual

/-- Modelled from the spec/std: structural equality of Stored Values, as the
Eq implementation Rust's hash map uses on its keys. -/
def beqValue : Value → Value → Bool
  | Value.Nil, Value.Nil => true
  | Value.Bool a, Value.Bool b => a == b
  | Value.Int a, Value.Int b => a == b
  | Value.Float a, Value.Float b => a == b
  | Value.Str a, Value.Str b => a == b
  | Value.Blob a, Value.Blob b => a == b
  | Value.GeoJSON a, Value.GeoJSON b => a == b
  | Value.List a, Value.List b => beqValueList a b
  | Value.HashMap a, Value.HashMap b => beqValuePairs a b
  | _, _ => false

/-- Elementwise equality of value sequences. -/
def beqValueList : List Value → List Value → Bool
  | [], [] => true
  | a :: as2, b :: bs2 => beqValue a b && beqValueList as2 bs2
  | _, _ => false

/-- Elementwise equality of pair sequences. -/
def beqValuePairs : List (Value × Value) → List (Value × Value) → Bool
  | [], [] => true
  | (ka, va) :: as2, (kb, vb) :: bs2 =>
    beqValue ka kb && (beqValue va vb && beqValuePairs as2 bs2)
  | _, _ => false

end

/-- Modelled from the spec/std: the std hash map of Stored Values that
CdtArgument::Map borrows (std::collections::HashMap of Value to Value).
It holds entries with pairwise distinct keys; `entries` lists them in the
map's own iteration order, which is unspecified and in particular is not
the insertion order. -/
structure HashMap where
  entries : List (Value × Value)

/-- Modelled from the spec/std: inserting into the hash map replaces the
value stored under an equal key (last write wins) and otherwise adds the
pair; duplicate keys can never coexist. -/
def HashMap.insert (m : HashMap) (k v : Value) : HashMap :=
  if m.entries.any (fun e => beqValue e.1 k) then
    { entries := m.entries.map (fun e => if beqValue e.1 k then (k, v) else e) }
  else
    { entries := m.entries ++ [(k, v)] }

/-- The hash map produced by starting empty and inserting each listed
(key, value) pair in order, as a caller of CdtArgument::Map would build it. -/
def HashMap.ofInserts (l : List (Value × Value)) : HashMap :=
  l.foldl (fun m kv => m.insert kv.1 kv.2) { entries := [] }

/-- One encodable operand of an operation (CdtArgument, src/src/operations/cdt.rs
lines 27-34): raw byte, signed 64-bit integer, boolean, a single stored value,
a sequence of stored values, or a hash map of stored values. -/
inductive CdtArgument where
  | Byte (b : Nat)
  | Int (i : Int)
  | Bool (b : Bool)
  | Value (v : Value)
  | List (l : List Value)
  | Map (m : HashMap)

/-- An opcode plus its ordered arguments (CdtOperation,
src/src/operations/cdt.rs lines 38-41). The opcode is a u8. -/
structure CdtOperation where
  op : Nat
  args : List CdtArgument

/-- Modelled from the spec: a Context Descriptor
(crate::operations::cdt_context::CdtContext): a selector opcode (u8, possibly
combined with creation flags) paired with exactly one Stored Value payload. -/
structure CdtContext where
  id : Nat
  value : Value

/-- Modelled from the spec: the byte Buffer (crate::commands::buffer::Buffer),
a sequential write sink with an internal byte store and cursor, append-only
within one encode call. An optional capacity models the spec's single failure
source, a sink that fails to accept a write. -/
structure Buffer where
  bytes : List Nat
  cap : Option Nat

/-- Modelled from the spec: the error a failing Buffer write surfaces,
carrying the underlying cause (current length, requested bytes, capacity). -/
inductive BufErr where
  | wouldOverflow (cur need cap : Nat)
deriving DecidableEq

/-- Modelled from the spec: appending raw bytes to the Buffer; fails exactly
when the sink cannot accept the write. -/
def Buffer.writeBytes (b : Buffer) (bs : List Nat) : Except BufErr Buffer :=
  match b.cap with
  | none => Except.ok { b with bytes := b.bytes ++ bs }
  | some c =>
    if b.bytes.length + bs.length ≤ c then Except.ok { b with bytes := b.bytes ++ bs }
    else Except.error (BufErr.wouldOverflow b.bytes.length bs.length c)

/-- Modelled from the spec: one primitive write through the optional sink.
With the sink absent (measure pass) nothing is written but the byte count
that would have been written is still returned; with the sink present
(write pass) the bytes are appended. This is the spec's shared code path
for the two passes. -/
def packRaw (sink : Option Buffer) (bs : List Nat) : Except BufErr (Nat × Option Buffer) :=
  match sink with
  | none => Except.ok (bs.length, none)
  | some b =>
    match b.writeBytes bs with
    | Except.ok b2 => Except.ok (bs.length, some b2)
    | Except.error e => Except.error e

/-- Sequencing of two packing steps: run the first, feed its sink to the
second, sum the byte counts, propagate the first failure unchanged. This is
the `size += pack_x(buf, ...)?` chaining of the source. -/
def pseq (f g : Option Buffer → Except BufErr (Nat × Option Buffer))
    (sink : Option Buffer) : Except BufErr (Nat × Option Buffer) :=
  match f sink with
  | Except.error e => Except.error e
  | Except.ok (n1, s1) =>
    match g s1 with
    | Except.error e => Except.error e
    | Except.ok (n2, s2) => Except.ok (n1 + n2, s2)

/-- Modelled from the spec: packing a single argument according to its tag —
raw-byte as a single byte, integer in smallest signed form, boolean as the
boolean type tag alone, a stored value recursively, a sequence count-prefixed,
a mapping count-prefixed with each key then its value in the map's entry
order (crate::msgpack::encoder::pack_cdt_arg). -/
def pack_cdt_arg (sink : Option Buffer) (a : CdtArgument) : Except BufErr (Nat × Option Buffer) :=
  match a with
  | CdtArgument.Byte b => packRaw sink [b % 256]
  | CdtArgument.Int i => packRaw sink (packInt i)
  | CdtArgument.Bool b => packRaw sink [if b then 0xc3 else 0xc2]
  | CdtArgument.Value v => packRaw sink (encodeValue v)
  | CdtArgument.List l => packRaw sink (arrayHeader l.length ++ encodeList l)
  | CdtArgument.Map m => packRaw sink (mapHeader m.entries.length ++ encodePairs m.entries)

/-- Packing each argument in the order the caller supplied them. -/
def pack_cdt_args : List CdtArgument → Option Buffer → Except BufErr (Nat × Option Buffer)
  | [] => fun sink => Except.ok (0, sink)
  | a :: rest => pseq (fun s => pack_cdt_arg s a) (pack_cdt_args rest)

/-- Modelled from the spec: the context extension marker byte. -/
def CTX_EXT_MARKER : Nat := 0xff

/-- Packing each context descriptor in path order, outermost first: the
selector opcode then the encoded selector value. -/
def pack_ctx_items : List CdtContext → Option Buffer → Except BufErr (Nat × Option Buffer)
  | [] => fun sink => Except.ok (0, sink)
  | c :: rest =>
    pseq (pseq (fun s => packRaw s (packNat (c.id % 256)))
        (fun s => packRaw s (encodeValue c.value)))
      (pack_ctx_items rest)

/-- The pure bytes of one context descriptor: selector opcode, then payload. -/
def ctxItemBytes (c : CdtContext) : List Nat :=
  packNat (c.id % 256) ++ encodeValue c.value

/-- The pure bytes of a whole context path, descriptors outermost first. -/
def ctxBytes : List CdtContext → List Nat
  | [] => []
  | c :: rest => ctxItemBytes c ++ ctxBytes rest

/-- The pure bytes of an argument, by tag (mirror of pack_cdt_arg). -/
def argBytes : CdtArgument → List Nat
  | CdtArgument.Byte b => [b % 256]
  | CdtArgument.Int i => packInt i
  | CdtArgument.Bool b => [if b then 0xc3 else 0xc2]
  | CdtArgument.Value v => encodeValue v
  | CdtArgument.List l => arrayHeader l.length ++ encodeList l
  | CdtArgument.Map m => mapHeader m.entries.length ++ encodePairs m.entries

/-- The pure bytes of an argument sequence, in the supplied order. -/
def argsBytes : List CdtArgument → List Nat
  | [] => []
  | a :: rest => argBytes a ++ argsBytes rest

/-- Modelled from the spec: the single recursive encoder entry point
(crate::msgpack::encoder::pack_cdt_op): a header identifying a CDT operation;
if the Context Path is non-empty, the extension marker, the path's encoded
length, the number of descriptors, then each descriptor in path order; then
the operation's own opcode; then each argument in order. One traversal serves
both passes: sink absent counts only, sink present appends. -/
def pack_cdt_op (sink : Option Buffer) (op : CdtOperation) (ctx : List CdtContext) :
    Except BufErr (Nat × Option Buffer) :=
  if ctx.isEmpty then
    pseq (fun s => packRaw s (arrayHeader (1 + op.args.length)))
      (pseq (fun s => packRaw s (packNat (op.op % 256)))
        (pack_cdt_args op.args)) sink
  else
    pseq (fun s => packRaw s (arrayHeader 3))
      (pseq (fun s => packRaw s [CTX_EXT_MARKER])
        (pseq (fun s => packRaw s (packNat (ctxBytes ctx).length))
          (pseq (fun s => packRaw s (packNat ctx.length))
            (pseq (pack_ctx_items ctx)
              (pseq (fun s => packRaw s (packNat (op.op % 256)))
                (pack_cdt_args op.args)))))) sink

/-- The no-context operation encoding, following the spec's words: the CDT
header, the opcode, then the arguments, with no context extension of any
kind. Stated separately to compare against pack_cdt_op on an empty path. -/
def pack_cdt_op_no_ctx (sink : Option Buffer) (op : CdtOperation) :
    Except BufErr (Nat × Option Buffer) :=
  pseq (fun s => packRaw s (arrayHeader (1 + op.args.length)))
    (pseq (fun s => packRaw s (packNat (op.op % 256)))
      (pack_cdt_args op.args)) sink

/-- The pure bytes of a whole encoded operation (mirror of pack_cdt_op). -/
def cdtOpBytes (op : CdtOperation) (ctx : List CdtContext) : List Nat :=
  if ctx.isEmpty then
    arrayHeader (1 + op.args.length) ++ (packNat (op.op % 256) ++ argsBytes op.args)
  else
    arrayHeader 3 ++ ([CTX_EXT_MARKER] ++ (packNat (ctxBytes ctx).length ++
      (packNat ctx.length ++ (ctxBytes ctx ++ (packNat (op.op % 256) ++ argsBytes op.args)))))

/-- The fixed wire value-type tag of an operation (CdtOperation::particle_type,
src/src/operations/cdt.rs lines 44-46). -/
def CdtOperation.particle_type (_ : CdtOperation) : ParticleType :=
  ParticleType.BLOB

/-- The measure pass (CdtOperation::estimate_size, src/src/operations/cdt.rs
lines 48-51): pack with the sink absent and return the byte count. -/
def CdtOperation.estimate_size (op : CdtOperation) (ctx : List CdtContext) :
    Except BufErr Nat :=
  match pack_cdt_op none op ctx with
  | Except.ok (n, _) => Except.ok n
  | Except.error e => Except.error e

/-- The write pass (CdtOperation::write_to, src/src/operations/cdt.rs
lines 53-56): pack with the sink present; the returned sink carries the
mutated buffer. -/
def CdtOperation.write_to (op : CdtOperation) (buffer : Buffer) (ctx : List CdtContext) :
    Except BufErr (Nat × Option Buffer) :=
  pack_cdt_op (some buffer) op ctx

/-- Modelled from the spec: the base policy (crate::policy::BasePolicy), an
external plain data holder with defaults whose fields are out of scope here;
represented opaquely. -/
structure BasePolicy where
  mk ::

/-- The default base policy. -/
def BasePolicy.default : BasePolicy := {}

/-- Modelled from the spec: a predicate expression filter
(crate::query::PredExp), an external trait object; represented opaquely. -/
structure PredExp where
  tag : Nat

/-- Scan policy (ScanPolicy, src/src/policy/scan_policy.rs lines 22-50). -/
structure ScanPolicy where
  base_policy : BasePolicy
  scan_percent : Nat
  max_concurrent_nodes : Nat
  record_queue_size : Nat
  fail_on_cluster_change : Bool
  socket_timeout : Nat
  predexp : List PredExp

/-- The default scan policy (impl Default for ScanPolicy,
src/src/policy/scan_policy.rs lines 64-76). -/
def ScanPolicy.default : ScanPolicy :=
  { base_policy := BasePolicy.default
    predexp := []
    scan_percent := 100
    max_concurrent_nodes := 0
    record_queue_size := 1024
    fail_on_cluster_change := true
    socket_timeout := 10000 }

/-- ScanPolicy::new (src/src/policy/scan_policy.rs lines 54-56): the default
policy; total, with no validation of any field. -/
def ScanPolicy.new : ScanPolicy :=
  ScanPolicy.default

/-- The map-argument encoding as the specification states it: the type tag, a
pair count equal to the number of pairs the caller inserted, then each
inserted key followed by its value in insertion order, with no reordering and
no deduplication of keys. Stated from the spec's words, to compare with the
hash-map-backed encoding of the code. -/
def mapArgBytesClaimed (inserts : List (Value × Value)) : List Nat :=
  mapHeader inserts.length ++ encodePairs inserts

/-- A packing step f realizes the byte sequence bs: with the sink absent it
returns the length of bs and no sink; with the sink present it either appends
exactly bs and returns that length, or fails exactly because the buffer
refused a write, surfacing the buffer's own error. -/
def PacksTo (f : Option Buffer → Except BufErr (Nat × Option Buffer)) (bs : List Nat) : Prop :=
  f none = Except.ok (bs.length, none) ∧
  (∀ b : Buffer, b.cap = none →
      f (some b) = Except.ok (bs.length, some { bytes := b.bytes ++ bs, cap := none })) ∧
  (∀ b : Buffer, ∀ n : Nat, ∀ s : Option Buffer, f (some b) = Except.ok (n, s) →
      n = bs.length ∧ s = some { bytes := b.bytes ++ bs, cap := b.cap }) ∧
  (∀ b : Buffer, ∀ e : BufErr, f (some b) = Except.error e →
      ∃ cur need c, e = BufErr.wouldOverflow cur need c ∧ b.cap = some c ∧
        c < cur + need)

/-- A primitive raw write realizes exactly its byte argument. -/
theorem packsTo_packRaw (bs : List Nat) : PacksTo (fun s => packRaw s bs) bs := by
  refine ⟨rfl, ?_, ?_, ?_⟩
  · intro b hb
    simp [packRaw, Buffer.writeBytes, hb]
  · intro b n s h
    cases hc : b.cap with
    | none =>
      simp [packRaw, Buffer.writeBytes, hc] at h
      obtain ⟨h1, h2⟩ := h
      subst h1
      subst h2
      exact ⟨rfl, rfl⟩
    | some c =>
      simp only [packRaw, Buffer.writeBytes, hc] at h
      by_cases hle : b.bytes.length + bs.length ≤ c
      · simp [hle] at h
        obtain ⟨h1, h2⟩ := h
        subst h1
        subst h2
        exact ⟨rfl, rfl⟩
      · simp [hle] at h
  · intro b e h
    cases hc : b.cap with
    | none => simp [packRaw, Buffer.writeBytes, hc] at h
    | some c =>
      simp only [packRaw, Buffer.writeBytes, hc] at h
      by_cases hle : b.bytes.length + bs.length ≤ c
      · simp [hle] at h
      · simp [hle] at h
        exact ⟨b.bytes.length, bs.length, c, h.symm, rfl, by omega⟩

/-- The empty packing step realizes the empty byte sequence. -/
theorem packsTo_done : PacksTo (fun sink => Except.ok (0, sink)) [] := by
  refine ⟨rfl, ?_, ?_, ?_⟩
  · intro b hb
    cases b with
    | mk bytes cap =>
      simp only at hb
      subst hb
      simp
  · intro b n s h
    simp only [Except.ok.injEq, Prod.mk.injEq] at h
    refine ⟨h.1.symm.trans rfl, ?_⟩
    rw [← h.2]
    simp
  · intro b e h
    simp at h

/-- Sequencing two packing steps realizes the concatenation of their bytes. -/
theorem packsTo_pseq {f g : Option Buffer → Except BufErr (Nat × Option Buffer)}
    {bs cs : List Nat} (hf : PacksTo f bs) (hg : PacksTo g cs) :
    PacksTo (pseq f g) (bs ++ cs) := by
  obtain ⟨hf1, hf2, hf3, hf4⟩ := hf
  obtain ⟨hg1, hg2, hg3, hg4⟩ := hg
  refine ⟨?_, ?_, ?_, ?_⟩
  · simp [pseq, hf1, hg1]
  · intro b hb
    have h2 := hf2 b hb
    have h3 := hg2 { bytes := b.bytes ++ bs, cap := none } rfl
    simp [pseq, h2, h3, List.append_assoc]
  · intro b n s h
    cases hfb : f (some b) with
    | error e =>
      simp [pseq, hfb] at h
    | ok p =>
      obtain ⟨n1, s1⟩ := p
      simp only [pseq, hfb] at h
      obtain ⟨hn1, hs1⟩ := hf3 b n1 s1 hfb
      subst hs1
      cases hgb : g (some { bytes := b.bytes ++ bs, cap := b.cap }) with
      | error e =>
        simp [hgb] at h
      | ok q =>
        obtain ⟨n2, s2⟩ := q
        simp only [hgb, Except.ok.injEq, Prod.mk.injEq] at h
        obtain ⟨hn2, hs2⟩ := hg3 _ n2 s2 hgb
        obtain ⟨hn, hs⟩ := h
        subst hn
        subst hs
        subst hn1
        subst hn2
        refine ⟨by simp, ?_⟩
        rw [hs2]
        simp [List.append_assoc]
  · intro b e h
    cases hfb : f (some b) with
    | error e2 =>
      simp only [pseq, hfb, Except.error.injEq] at h
      subst h
      exact hf4 b e2 hfb
    | ok p =>
      obtain ⟨n1, s1⟩ := p
      simp only [pseq, hfb] at h
      obtain ⟨hn1, hs1⟩ := hf3 b n1 s1 hfb
      subst hs1
      cases hgb : g (some { bytes := b.bytes ++ bs, cap := b.cap }) with
      | error e2 =>
        simp only [hgb, Except.error.injEq] at h
        subst h
        obtain ⟨cur, need, c, hec, hcap, hlt⟩ := hg4 _ e2 hgb
        exact ⟨cur, need, c, hec, hcap, hlt⟩
      | ok q =>
        obtain ⟨n2, s2⟩ := q
        simp [hgb] at h

/-- Each argument packs to its pure byte image. -/
theorem packsTo_arg (a : CdtArgument) : PacksTo (fun s => pack_cdt_arg s a) (argBytes a) := by
  cases a <;> (simp only [pack_cdt_arg, argBytes]; exact packsTo_packRaw _)

/-- The argument sequence packs to the concatenation of the argument byte
images, in the supplied order. -/
theorem packsTo_args (l : List CdtArgument) : PacksTo (pack_cdt_args l) (argsBytes l) := by
  induction l with
  | nil => exact packsTo_done
  | cons a rest ih => exact packsTo_pseq (packsTo_arg a) ih

/-- The context path packs to its pure byte image, descriptors in path order. -/
theorem packsTo_ctx (l : List CdtContext) : PacksTo (pack_ctx_items l) (ctxBytes l) := by
  induction l with
  | nil => exact packsTo_done
  | cons c rest ih =>
    exact packsTo_pseq (packsTo_pseq (packsTo_packRaw _) (packsTo_packRaw _)) ih

/-- The whole operation encoder packs to its pure byte image: the central
lemma tying the measure pass and the write pass to one byte sequence. -/
theorem packsTo_op (op : CdtOperation) (ctx : List CdtContext) :
    PacksTo (fun s => pack_cdt_op s op ctx) (cdtOpBytes op ctx) := by
  cases ctx with
  | nil =>
    simp only [pack_cdt_op, cdtOpBytes, List.isEmpty_nil, if_true]
    exact packsTo_pseq (packsTo_packRaw _)
      (packsTo_pseq (packsTo_packRaw _) (packsTo_args _))
  | cons c rest =>
    simp only [pack_cdt_op, cdtOpBytes, List.isEmpty_cons, if_false, Bool.false_eq_true]
    exact packsTo_pseq (packsTo_packRaw _)
      (packsTo_pseq (packsTo_packRaw _)
        (packsTo_pseq (packsTo_packRaw _)
          (packsTo_pseq (packsTo_packRaw _)
            (packsTo_pseq (packsTo_ctx _)
              (packsTo_pseq (packsTo_packRaw _) (packsTo_args _))))))

/-- The measure pass returns exactly the length of the pure byte image. -/
theorem estimate_size_eq (op : CdtOperation) (ctx : List CdtContext) :
    op.estimate_size ctx = Except.ok (cdtOpBytes op ctx).length := by
  have h1 : pack_cdt_op none op ctx =
      Except.ok ((cdtOpBytes op ctx).length, (none : Option Buffer)) :=
    (packsTo_op op ctx).1
  unfold CdtOperation.estimate_size
  rw [h1]

/-- The write pass on an unbounded buffer appends exactly the pure byte image
and returns its length. -/
theorem write_to_unbounded (op : CdtOperation) (ctx : List CdtContext) (b : Buffer)
    (hb : b.cap = none) :
    op.write_to b ctx = Except.ok ((cdtOpBytes op ctx).length,
      some { bytes := b.bytes ++ cdtOpBytes op ctx, cap := none }) :=
  (packsTo_op op ctx).2.1 b hb

/-- The argument byte sequence is the ordered concatenation of each argument's
bytes. -/
theorem argsBytes_join (l : List CdtArgument) :
    argsBytes l = (l.map argBytes).flatten := by
  induction l with
  | nil => rfl
  | cons a rest ih => simp [argsBytes, ih]

/-- C1: for every Operation and Context Path, the byte count returned by the
measure pass (estimate_size, sink absent) equals the byte count returned by
the write pass (write_to, sink present) on the same inputs, and the write
pass appends exactly that many bytes to the buffer. -/
theorem measure_write_agree (op : CdtOperation) (ctx : List CdtContext) (b : Buffer)
    (n m : Nat) (s : Option Buffer)
    (hm : op.estimate_size ctx = Except.ok n)
    (hw : op.write_to b ctx = Except.ok (m, s)) :
    n = m ∧ s = some { bytes := b.bytes ++ cdtOpBytes op ctx, cap := b.cap } ∧
      (cdtOpBytes op ctx).length = n := by
  have he := estimate_size_eq op ctx
  rw [he] at hm
  obtain rfl : (cdtOpBytes op ctx).length = n := by simpa using hm
  obtain ⟨hm2, hs⟩ := (packsTo_op op ctx).2.2.1 b m s hw
  exact ⟨hm2.symm, hs, rfl⟩

/-- Witness for C1 at a concrete operation, path and buffer. -/
theorem measure_write_agree_witness :
    4 = 4 ∧
      (some { bytes := cdtOpBytes ⟨6, [CdtArgument.Int 5, CdtArgument.Byte 7]⟩ [], cap := none } :
          Option Buffer) =
        some { bytes := cdtOpBytes ⟨6, [CdtArgument.Int 5, CdtArgument.Byte 7]⟩ [], cap := none } ∧
      (cdtOpBytes ⟨6, [CdtArgument.Int 5, CdtArgument.Byte 7]⟩ []).length = 4 :=
  measure_write_agree ⟨6, [CdtArgument.Int 5, CdtArgument.Byte 7]⟩ [] ⟨[], none⟩ 4 4
    (some { bytes := cdtOpBytes ⟨6, [CdtArgument.Int 5, CdtArgument.Byte 7]⟩ [], cap := none })
    (by rfl) (by rfl)

/-- C2 counterexample: building the hash-map argument by inserting the key
(integer 1) twice, with values 2 then 3, encodes a single deduplicated pair
(count 1, last value), not the two inserted pairs in insertion order that the
claim requires — CdtArgument::Map borrows a std hash map, which cannot hold
duplicate keys. -/
theorem map_arg_dedup_counterexample :
    argBytes (CdtArgument.Map (HashMap.ofInserts
        [(Value.Int 1, Value.Int 2), (Value.Int 1, Value.Int 3)])) ≠
      mapArgBytesClaimed [(Value.Int 1, Value.Int 2), (Value.Int 1, Value.Int 3)] := by
  decide

/-- C2 amended: encoding a map-valued Argument writes the map type tag, a
pair count equal to the number of distinct keys held by the hash map, then
each stored key followed by its value in the map's own iteration order;
duplicate key insertions have been deduplicated by the hash map (last value
wins) and the caller's insertion order is not preserved. -/
theorem map_arg_encoding (c : Nat) (m : HashMap) (b : Buffer) (hb : b.cap = none) :
    CdtOperation.write_to ⟨c, [CdtArgument.Map m]⟩ b [] =
      Except.ok ((arrayHeader 2 ++ packNat (c % 256) ++ mapHeader m.entries.length ++
          encodePairs m.entries).length,
        some { bytes := b.bytes ++ (arrayHeader 2 ++ packNat (c % 256) ++
          mapHeader m.entries.length ++ encodePairs m.entries), cap := none }) ∧
    CdtOperation.estimate_size ⟨c, [CdtArgument.Map m]⟩ [] =
      Except.ok (arrayHeader 2 ++ packNat (c % 256) ++ mapHeader m.entries.length ++
        encodePairs m.entries).length := by
  have h : cdtOpBytes ⟨c, [CdtArgument.Map m]⟩ [] =
      arrayHeader 2 ++ packNat (c % 256) ++ mapHeader m.entries.length ++
        encodePairs m.entries := by
    simp [cdtOpBytes, argsBytes, argBytes, List.append_assoc]
  constructor
  · have hw := write_to_unbounded ⟨c, [CdtArgument.Map m]⟩ [] b hb
    rw [h] at hw
    exact hw
  · have he := estimate_size_eq ⟨c, [CdtArgument.Map m]⟩ []
    rw [h] at he
    exact he

/-- Witness for the amended C2 at a concrete opcode, map and buffer. -/
theorem map_arg_encoding_witness :
    CdtOperation.write_to ⟨77, [CdtArgument.Map ⟨[(Value.Nil, Value.Int 1)]⟩]⟩ ⟨[], none⟩ [] =
      Except.ok ((arrayHeader 2 ++ packNat (77 % 256) ++ mapHeader 1 ++
          encodePairs [(Value.Nil, Value.Int 1)]).length,
        some { bytes := [] ++ (arrayHeader 2 ++ packNat (77 % 256) ++ mapHeader 1 ++
          encodePairs [(Value.Nil, Value.Int 1)]), cap := none }) ∧
    CdtOperation.estimate_size ⟨77, [CdtArgument.Map ⟨[(Value.Nil, Value.Int 1)]⟩]⟩ [] =
      Except.ok (arrayHeader 2 ++ packNat (77 % 256) ++ mapHeader 1 ++
        encodePairs [(Value.Nil, Value.Int 1)]).length :=
  map_arg_encoding 77 ⟨[(Value.Nil, Value.Int 1)]⟩ ⟨[], none⟩ rfl

/-- C3: the measure pass never fails; the write pass on an unbounded buffer
never fails; and when the write pass does fail, the error is exactly the
buffer's own refusal of a write, carrying the underlying cause unchanged —
the encoder introduces no validation failure mode of its own. -/
theorem encoder_error_model (op : CdtOperation) (ctx : List CdtContext) :
    (∃ n : Nat, op.estimate_size ctx = Except.ok n) ∧
    (∀ b : Buffer, b.cap = none → op.write_to b ctx =
        Except.ok ((cdtOpBytes op ctx).length,
          some { bytes := b.bytes ++ cdtOpBytes op ctx, cap := none })) ∧
    (∀ b : Buffer, ∀ e : BufErr, op.write_to b ctx = Except.error e →
        ∃ cur need c, e = BufErr.wouldOverflow cur need c ∧ b.cap = some c ∧
          c < cur + need) := by
  refine ⟨⟨(cdtOpBytes op ctx).length, estimate_size_eq op ctx⟩, ?_, ?_⟩
  · intro b hb
    exact (packsTo_op op ctx).2.1 b hb
  · intro b e h
    exact (packsTo_op op ctx).2.2.2 b e h

/-- Witness for C3 at a concrete operation, applying both success clauses. -/
theorem encoder_error_model_witness :
    (∃ n : Nat, CdtOperation.estimate_size ⟨6, []⟩ [] = Except.ok n) ∧
    CdtOperation.write_to ⟨6, []⟩ ⟨[], none⟩ [] =
      Except.ok ((cdtOpBytes ⟨6, []⟩ []).length,
        some { bytes := [] ++ cdtOpBytes ⟨6, []⟩ [], cap := none }) :=
  ⟨(encoder_error_model ⟨6, []⟩ []).1,
    (encoder_error_model ⟨6, []⟩ []).2.1 ⟨[], none⟩ rfl⟩

/-- C4: every Operation, regardless of opcode and arguments, reports the
single fixed BLOB wire value-type tag to the outer command layer. -/
theorem particle_type_always_blob (op : CdtOperation) :
    op.particle_type = ParticleType.BLOB :=
  rfl

/-- C5: an Operation with zero Arguments is valid and encodes to the fixed
minimal byte sequence holding only the CDT header and the opcode, with the
measure pass returning exactly that sequence's length. -/
theorem zero_args_minimal (c : Nat) (b : Buffer) (hb : b.cap = none) :
    CdtOperation.estimate_size ⟨c, []⟩ [] =
      Except.ok (arrayHeader 1 ++ packNat (c % 256)).length ∧
    CdtOperation.write_to ⟨c, []⟩ b [] =
      Except.ok ((arrayHeader 1 ++ packNat (c % 256)).length,
        some { bytes := b.bytes ++ (arrayHeader 1 ++ packNat (c % 256)), cap := none }) := by
  have h : cdtOpBytes ⟨c, []⟩ [] = arrayHeader 1 ++ packNat (c % 256) := by
    simp [cdtOpBytes, argsBytes]
  constructor
  · have he := estimate_size_eq ⟨c, []⟩ []
    rw [h] at he
    exact he
  · have hw := write_to_unbounded ⟨c, []⟩ [] b hb
    rw [h] at hw
    exact hw

/-- Witness for C5 at a concrete opcode and buffer. -/
theorem zero_args_minimal_witness :
    CdtOperation.estimate_size ⟨6, []⟩ [] =
      Except.ok (arrayHeader 1 ++ packNat (6 % 256)).length ∧
    CdtOperation.write_to ⟨6, []⟩ ⟨[], none⟩ [] =
      Except.ok ((arrayHeader 1 ++ packNat (6 % 256)).length,
        some { bytes := [] ++ (arrayHeader 1 ++ packNat (6 % 256)), cap := none }) :=
  zero_args_minimal 6 ⟨[], none⟩ rfl

/-- C6: encoding an Operation with a Context Path of length zero omits the
context extension entirely: it is the very same computation — hence
byte-for-byte identical on every sink — as encoding with no context at all,
and its bytes are exactly the header, opcode and arguments. -/
theorem empty_path_no_extension (sink : Option Buffer) (op : CdtOperation) :
    pack_cdt_op sink op [] = pack_cdt_op_no_ctx sink op ∧
    cdtOpBytes op [] =
      arrayHeader (1 + op.args.length) ++ (packNat (op.op % 256) ++ argsBytes op.args) :=
  ⟨rfl, rfl⟩

/-- C7: the measure pass mutates no externally visible state: it runs with no
sink at all, leaves the (absent) sink untouched, and returns only a byte
count; the Operation, the Context Path and the Stored Values are consumed as
immutable values of the embedding. -/
theorem estimate_size_no_mutation (op : CdtOperation) (ctx : List CdtContext) :
    ∃ n : Nat, pack_cdt_op none op ctx = Except.ok (n, none) ∧
      op.estimate_size ctx = Except.ok n :=
  ⟨(cdtOpBytes op ctx).length, (packsTo_op op ctx).1, estimate_size_eq op ctx⟩

/-- C8: measuring twice on the same unmodified Operation and Context Path
yields the same byte count both times: the first call returns its sink state
unchanged (none), and a second call run from that state returns the same
count. -/
theorem estimate_size_idempotent (op : CdtOperation) (ctx : List CdtContext)
    (n : Nat) (s : Option Buffer)
    (h : pack_cdt_op none op ctx = Except.ok (n, s)) :
    s = none ∧ pack_cdt_op s op ctx = Except.ok (n, s) ∧
      op.estimate_size ctx = Except.ok n := by
  have h1 : pack_cdt_op none op ctx =
      Except.ok ((cdtOpBytes op ctx).length, (none : Option Buffer)) :=
    (packsTo_op op ctx).1
  rw [h1] at h
  obtain ⟨hn, hs⟩ : (cdtOpBytes op ctx).length = n ∧ (none : Option Buffer) = s := by
    simpa using h
  subst hn
  subst hs
  exact ⟨rfl, h1, estimate_size_eq op ctx⟩

/-- Witness for C8 at a concrete operation and path. -/
theorem estimate_size_idempotent_witness :
    (none : Option Buffer) = none ∧
      pack_cdt_op none ⟨6, [CdtArgument.Byte 9]⟩ [] = Except.ok (3, none) ∧
      CdtOperation.estimate_size ⟨6, [CdtArgument.Byte 9]⟩ [] = Except.ok 3 :=
  estimate_size_idempotent ⟨6, [CdtArgument.Byte 9]⟩ [] 3 none (by rfl)

/-- C9: the Arguments of an Operation are encoded in exactly the order the
caller supplied them and with the supplied count: the encoded operation is a
fixed prefix followed by the concatenation, in list order, of each supplied
argument's bytes — never reordered, never deduplicated. -/
theorem args_encoded_in_order (op : CdtOperation) (ctx : List CdtContext) (b : Buffer)
    (hb : b.cap = none) :
    ∃ pre : List Nat,
      cdtOpBytes op ctx = pre ++ (op.args.map argBytes).flatten ∧
      op.write_to b ctx = Except.ok ((pre ++ (op.args.map argBytes).flatten).length,
        some { bytes := b.bytes ++
          (pre ++ (op.args.map argBytes).flatten), cap := none }) := by
  have hw := write_to_unbounded op ctx b hb
  cases ctx with
  | nil =>
    have h : cdtOpBytes op [] =
        (arrayHeader (1 + op.args.length) ++ packNat (op.op % 256)) ++
          (op.args.map argBytes).flatten := by
      simp [cdtOpBytes, argsBytes_join, List.append_assoc]
    exact ⟨_, h, by rw [← h]; exact hw⟩
  | cons c rest =>
    have h : cdtOpBytes op (c :: rest) =
        (arrayHeader 3 ++ ([CTX_EXT_MARKER] ++ (packNat (ctxBytes (c :: rest)).length ++
          (packNat (c :: rest).length ++ (ctxBytes (c :: rest) ++
            packNat (op.op % 256)))))) ++ (op.args.map argBytes).flatten := by
      simp [cdtOpBytes, argsBytes_join, List.append_assoc]
    exact ⟨_, h, by rw [← h]; exact hw⟩

/-- Witness for C9 at a concrete operation with a duplicated argument and a
non-empty path. -/
theorem args_encoded_in_order_witness :
    ∃ pre : List Nat,
      cdtOpBytes ⟨9, [CdtArgument.Bool true, CdtArgument.Bool true]⟩
          [⟨32, Value.Int 3⟩] =
        pre ++ ([CdtArgument.Bool true, CdtArgument.Bool true].map argBytes).flatten ∧
      CdtOperation.write_to ⟨9, [CdtArgument.Bool true, CdtArgument.Bool true]⟩
          ⟨[], none⟩ [⟨32, Value.Int 3⟩] =
        Except.ok ((pre ++
            ([CdtArgument.Bool true, CdtArgument.Bool true].map argBytes).flatten).length,
          some { bytes := [] ++ (pre ++
            ([CdtArgument.Bool true, CdtArgument.Bool true].map argBytes).flatten), cap := none }) :=
  args_encoded_in_order ⟨9, [CdtArgument.Bool true, CdtArgument.Bool true]⟩
    [⟨32, Value.Int 3⟩] ⟨[], none⟩ rfl

/-- C10: ScanPolicy::new returns the same policy as ScanPolicy::default, whose
fields are scan_percent 100, max_concurrent_nodes 0, record_queue_size 1024,
fail_on_cluster_change true, socket_timeout 10000, an empty predexp list and
the default base policy; construction is total and validates nothing. -/
theorem scan_policy_defaults :
    ScanPolicy.new = ScanPolicy.default ∧
      ScanPolicy.new.scan_percent = 100 ∧
      ScanPolicy.new.max_concurrent_nodes = 0 ∧
      ScanPolicy.new.record_queue_size = 1024 ∧
      ScanPolicy.new.fail_on_cluster_change = true ∧
      ScanPolicy.new.socket_timeout = 10000 ∧
      ScanPolicy.new.predexp = [] ∧
      ScanPolicy.new.base_policy = BasePolicy.default :=
  ⟨rfl, rfl, rfl, rfl, rfl, rfl, rfl, rfl⟩

end Aerospike
